import Mathlib

/-!
Shallow embedding of the position-accounting ledger (src/app.py) and the
performance-analytics helpers (src/engine/framework.py) of the
trading-backend repository, together with proofs of the specified
properties.

Quantities and prices are modelled as exact rationals; the Python source
carries them as binary floats (the spec itself flags this as an open
question), so the rational model is the exact-arithmetic reading of the
same code paths.  Database identity of an instrument is its unique
(symbol, market) pair (models.py enforces a unique constraint on it), so
instruments are modelled by that pair directly, and the tables by lists.
-/

namespace TradingBackend

/-- models.py `Instrument`: identified by the unique (symbol, market) pair. -/
structure Instrument where
  symbol : String
  market : String
deriving DecidableEq, Repr

/-- models.py `PortfolioHolding` (the per-instrument read model). -/
structure Holding where
  quantity : ℚ
  average_cost : ℚ
  current_price : ℚ
deriving DecidableEq, Repr

/-- models.py `Transaction` (the append-only ledger event). -/
structure Transaction where
  instrument : Instrument
  side : String
  quantity : ℚ
  price : ℚ
  reason : String
  tags : List String
deriving DecidableEq, Repr

/-- The committed database state touched by the trade endpoints:
the instruments table, the transactions ledger, and the holdings table
(an association list keyed by instrument; the schema keeps at most one
row per instrument). -/
structure DBState where
  instruments : List Instrument
  transactions : List Transaction
  holdings : List (Instrument × Holding)
deriving DecidableEq, Repr

def DBState.empty : DBState := ⟨[], [], []⟩

/-- `PortfolioHolding.query.filter_by(instrument_id=...).first()`. -/
def lookupHolding : List (Instrument × Holding) → Instrument → Option Holding
  | [], _ => none
  | p :: ps, i => if p.1 = i then some p.2 else lookupHolding ps i

/-- In-place mutation of the (unique) holding row of instrument `i`. -/
def setHolding : List (Instrument × Holding) → Instrument → Holding → List (Instrument × Holding)
  | [], _, _ => []
  | p :: ps, i, h => (if p.1 = i then (p.1, h) else p) :: setHolding ps i h

/-- `db.session.delete(holding)` for the rows of instrument `i`. -/
def removeHolding : List (Instrument × Holding) → Instrument → List (Instrument × Holding)
  | [], _ => []
  | p :: ps, i => if p.1 = i then removeHolding ps i else p :: removeHolding ps i

/-- The JSON body of POST /api/portfolio/trade.  The five required fields
are optional at the wire level (`execute_trade` checks their presence);
`reason` and `tags` default to `''` and `[]` via `data.get`. -/
structure TradeRequest where
  symbol : Option String
  market : Option String
  side : Option String
  quantity : Option ℚ
  price : Option ℚ
  reason : Option String
  tags : Option (List String)
deriving DecidableEq, Repr

/-- The success payload of `execute_trade`: the human message and the
`current_holding.quantity` field, read off the in-memory holding object
after the branch has run. -/
structure TradeResponse where
  message : String
  current_holding_quantity : ℚ
deriving DecidableEq, Repr

/-- Outcome of one `execute_trade` request.  Both constructors carry the
committed database state after the request: rejections that happen before
`db.session.commit()` leave the state unchanged (the session is rolled
back), while the unbound-`msg` failure path commits first and errors only
while building the response. -/
inductive TradeResult
| ok (s : DBState) (resp : TradeResponse)
| err (s : DBState) (msg : String)
deriving DecidableEq, Repr

def TradeResult.state : TradeResult → DBState
  | .ok s _ => s
  | .err s _ => s

def TradeResult.isOk : TradeResult → Bool
  | .ok _ _ => true
  | .err _ _ => false

def TradeResult.response : TradeResult → Option TradeResponse
  | .ok _ r => some r
  | .err _ _ => none

/-- Python `str.upper()` as used on `data['side']` (character-wise ASCII
uppercasing; the sides handled by the endpoint are ASCII). -/
def pyUpper (s : String) : String := ⟨s.data.map Char.toUpper⟩

/-- Body of `execute_trade` (src/app.py lines 131-209) once the five
required fields are present.  The in-memory `holding` object outlives
`db.session.delete`, so the response of a full close reports its old
quantity.  A BUY whose new total quantity is 0 raises ZeroDivisionError
at the average-cost division (line 178), which the handler turns into a
rollback and a 500: the committed state is unchanged.  If the uppercased
side is neither BUY nor SELL and a holding
exists, the source commits (line 197) and then raises `NameError` on the
unbound `msg`, which the handler turns into a 500 after a rollback that
can no longer undo the commit. -/
def execute_trade_checked (s : DBState) (symbol market side₀ : String)
    (trade_qty trade_price : ℚ) (reason : String) (tags : List String) : TradeResult :=
  let side := pyUpper side₀
  let instr : Instrument := ⟨symbol, market⟩
  if instr ∉ s.instruments ∧ side = "SELL" then
    .err s "Cannot sell an instrument you do not own"
  else
    let instruments₁ := if instr ∈ s.instruments then s.instruments else s.instruments ++ [instr]
    let transactions₁ := s.transactions ++ [⟨instr, side, trade_qty, trade_price, reason, tags⟩]
    match lookupHolding s.holdings instr with
    | none =>
      if side = "SELL" then
        .err s "Position not found"
      else
        .ok ⟨instruments₁, transactions₁,
             s.holdings ++ [(instr, ⟨trade_qty, trade_price, trade_price⟩)]⟩
           ⟨s!"Opened new position: {symbol}", trade_qty⟩
    | some holding =>
      if side = "BUY" then
        let total_cost := holding.quantity * holding.average_cost + trade_qty * trade_price
        let new_qty := holding.quantity + trade_qty
        if new_qty = 0 then
          -- app.py line 178 computes total_cost / new_qty, raising
          -- ZeroDivisionError when new_qty = 0 (reachable because quantities
          -- are never validated); the handler rolls back and returns a 500,
          -- so the committed state is the pre-call state
          .err s "float division by zero"
        else
          .ok ⟨instruments₁, transactions₁,
               setHolding s.holdings instr ⟨new_qty, total_cost / new_qty, trade_price⟩⟩
             ⟨s!"Added to position: {symbol}", new_qty⟩
      else if side = "SELL" then
        if holding.quantity < trade_qty then
          .err s "Not enough quantity to sell"
        else
          let new_qty := holding.quantity - trade_qty
          if new_qty = 0 then
            .ok ⟨instruments₁, transactions₁, removeHolding s.holdings instr⟩
               ⟨s!"Closed position: {symbol}", holding.quantity⟩
          else
            .ok ⟨instruments₁, transactions₁,
                 setHolding s.holdings instr ⟨new_qty, holding.average_cost, trade_price⟩⟩
               ⟨s!"Reduced position: {symbol}", new_qty⟩
      else
        .err ⟨instruments₁, transactions₁, s.holdings⟩ "name msg is not defined"

/-- POST /api/portfolio/trade (src/app.py `execute_trade`). -/
def execute_trade (s : DBState) (req : TradeRequest) : TradeResult :=
  match req.symbol, req.market, req.side, req.quantity, req.price with
  | some symbol, some market, some side₀, some trade_qty, some trade_price =>
      execute_trade_checked s symbol market side₀ trade_qty trade_price
        (req.reason.getD "") (req.tags.getD [])
  | _, _, _, _, _ => .err s "Missing fields"

/-- Python `round(x, 2)` at the integer step: round to nearest with ties
to even (the semantics of builtin `round`). -/
def roundHalfEven (x : ℚ) : ℤ :=
  let n := ⌊x⌋
  if x - n < 1 / 2 then n
  else if 1 / 2 < x - n then n + 1
  else if Even n then n else n + 1

/-- Python `round(x, 2)`. -/
def round2 (x : ℚ) : ℚ := (roundHalfEven (x * 100) : ℚ) / 100

/-- One row of the GET /api/assets/overview payload. -/
structure AssetOverviewEntry where
  symbol : String
  market : String
  value_twd : ℚ
  quantity : ℚ
  average_cost : ℚ
  current_price : ℚ
deriving DecidableEq, Repr

/-- GET /api/assets/overview (src/app.py `get_assets_overview`): one entry
per holding row, with the hardcoded 32.5 USD rate applied to US markets. -/
def get_assets_overview (s : DBState) : List AssetOverviewEntry :=
  s.holdings.map fun p =>
    let market_val := p.2.quantity * p.2.current_price
    let val_twd := if p.1.market = "US" then market_val * (325 / 10) else market_val
    ⟨p.1.symbol, p.1.market, round2 val_twd, p.2.quantity, p.2.average_cost, p.2.current_price⟩

/-- One element of the POST /api/admin/update-assets body.  `quantity` and
`current_price` default to 0 via `item.get(..., 0)`. -/
structure AssetItem where
  symbol : Option String
  market : Option String
  quantity : Option ℚ
  current_price : Option ℚ
deriving DecidableEq, Repr

/-- The `if not symbol or not market: continue` guard of `update_assets`:
an item is skipped when either field is absent or the empty (falsy)
string; otherwise it designates this instrument. -/
def validItem (item : AssetItem) : Option Instrument :=
  match item.symbol, item.market with
  | some sy, some mk => if sy = "" ∨ mk = "" then none else some ⟨sy, mk⟩
  | _, _ => none

/-- The per-item loop of `update_assets` (src/app.py lines 63-91),
threading the state and the `processed_instrument_ids` accumulator. -/
def update_assets_loop : DBState → List Instrument → List AssetItem → DBState × List Instrument
  | s, processed, [] => (s, processed)
  | s, processed, item :: rest =>
    match validItem item with
    | none => update_assets_loop s processed rest
    | some instr =>
        let qty := item.quantity.getD 0
        let price := item.current_price.getD 0
        let instruments₁ := if instr ∈ s.instruments then s.instruments
                            else s.instruments ++ [instr]
        let holdings₁ :=
          match lookupHolding s.holdings instr with
          | some h => setHolding s.holdings instr ⟨qty, h.average_cost, price⟩
          | none => s.holdings ++ [(instr, ⟨qty, price, price⟩)]
        update_assets_loop ⟨instruments₁, s.transactions, holdings₁⟩
          (processed ++ [instr]) rest

/-- POST /api/admin/update-assets (src/app.py `update_assets`): process
every item, then delete the holdings whose instrument was not processed
(all of them when the processed list is empty). -/
def update_assets (s : DBState) (items : List AssetItem) : DBState :=
  let r := update_assets_loop s [] items
  let holdings₁ :=
    if r.2 ≠ [] then r.1.holdings.filter fun p => decide (p.1 ∈ r.2)
    else []
  ⟨r.1.instruments, r.1.transactions, holdings₁⟩

/-! Performance-analytics helpers from src/engine/framework.py. -/

/-- The fields of a backtrader trade record that feed the points
computation in `TradeListAnalyzer.notify_trade`: `trade.pnl` and
`orig_size` (the size recorded in the first history entry, 0 when the
history is empty). -/
structure BtTrade where
  pnl : ℚ
  size : ℚ
deriving DecidableEq, Repr

/-- The unrounded points value of one trade
(`trade.pnl / (abs(calc_size) * mult) if mult > 0 else 0`, with
`calc_size = orig_size if orig_size != 0 else 1`). -/
def trade_points_raw (mult : ℚ) (t : BtTrade) : ℚ :=
  let calc_size := if t.size ≠ 0 then t.size else 1
  if 0 < mult then t.pnl / (|calc_size| * mult) else 0

/-- The `points` field stored by `TradeListAnalyzer.notify_trade`
(framework.py line 67): the raw value already rounded to 2 decimals. -/
def trade_points (mult : ℚ) (t : BtTrade) : ℚ := round2 (trade_points_raw mult t)

/-- `total_net_points` as computed in `run_strategy` (framework.py line
227): the sum of the stored, per-trade-rounded `points` fields. -/
def total_net_points (mult : ℚ) (trades : List BtTrade) : ℚ :=
  (trades.map (trade_points mult)).sum

/-- The value exported under `overview.total_net_points`
(framework.py line 233). -/
def total_net_points_reported (mult : ℚ) (trades : List BtTrade) : ℚ :=
  round2 (total_net_points mult trades)

/-- Result of `_calculate_sortino`: a float that may be `float('inf')`. -/
inductive SortinoResult
| val (x : ℝ)
| inf

/-- `_calculate_sortino` (framework.py lines 74-90) over exact reals:
fewer than 2 observations give 0; an empty downside set gives +infinity;
otherwise the annualized mean excess return divided by the annualized
downside deviation, with 0 under a zero denominator. -/
noncomputable def calculate_sortino (returns : List ℝ) (risk_free_rate : ℝ) : SortinoResult :=
  if returns.length < 2 then .val 0
  else
    let annualized_return := returns.sum / returns.length * 252
    let downside_returns := returns.filter fun r => decide (r < risk_free_rate)
    if downside_returns.length = 0 then .inf
    else
      let downside_std := Real.sqrt ((downside_returns.map fun r => r ^ 2).sum / downside_returns.length)
      let annual_downside_std := downside_std * Real.sqrt 252
      .val (if annual_downside_std ≠ 0 then (annualized_return - risk_free_rate) / annual_downside_std
            else 0)

/-! Helper lemmas about the holdings association list. -/

theorem lookupHolding_set_self {hs : List (Instrument × Holding)} {i : Instrument} {h : Holding}
    (h' : Holding) (hl : lookupHolding hs i = some h) :
    lookupHolding (setHolding hs i h') i = some h' := by
  induction hs with
  | nil => simp [lookupHolding] at hl
  | cons p ps ih =>
    by_cases hp : p.1 = i
    · simp [setHolding, lookupHolding, hp]
    · simp only [lookupHolding, if_neg hp] at hl
      simpa [setHolding, lookupHolding, hp] using ih hl

theorem lookupHolding_set_ne {hs : List (Instrument × Holding)} {i j : Instrument}
    (x : Holding) (hij : i ≠ j) :
    lookupHolding (setHolding hs j x) i = lookupHolding hs i := by
  induction hs with
  | nil => rfl
  | cons p ps ih =>
    simp only [setHolding]
    by_cases hp : p.1 = j
    · rw [if_pos hp]
      have h1 : ¬ (p.1 = i) := fun hc => hij (by rw [← hc]; exact hp)
      simp only [lookupHolding, if_neg h1]
      exact ih
    · rw [if_neg hp]
      simp only [lookupHolding]
      by_cases hq : p.1 = i
      · rw [if_pos hq, if_pos hq]
      · rw [if_neg hq, if_neg hq]
        exact ih

theorem lookupHolding_remove (hs : List (Instrument × Holding)) (i : Instrument) :
    lookupHolding (removeHolding hs i) i = none := by
  induction hs with
  | nil => rfl
  | cons p ps ih =>
    by_cases hp : p.1 = i <;> simp [removeHolding, lookupHolding, hp, ih]

theorem lookupHolding_mem {hs : List (Instrument × Holding)} {i : Instrument} {h : Holding}
    (hl : lookupHolding hs i = some h) : (i, h) ∈ hs := by
  induction hs with
  | nil => simp [lookupHolding] at hl
  | cons p ps ih =>
    by_cases hp : p.1 = i
    · simp only [lookupHolding, if_pos hp] at hl
      obtain rfl : p.2 = h := by injection hl
      have hpe : (i, p.2) = p := by rw [← hp]
      rw [hpe]
      exact List.mem_cons_self _ _
    · simp only [lookupHolding, if_neg hp] at hl
      exact List.mem_cons_of_mem _ (ih hl)

theorem mem_setHolding {hs : List (Instrument × Holding)} {j : Instrument} {x : Holding}
    {q : Instrument × Holding} (hq : q ∈ setHolding hs j x) :
    (q.1 = j ∧ q.2 = x) ∨ q ∈ hs := by
  induction hs with
  | nil => simp [setHolding] at hq
  | cons p ps ih =>
    simp only [setHolding, List.mem_cons] at hq
    rcases hq with hq | hq
    · by_cases hp : p.1 = j
      · rw [if_pos hp] at hq
        subst hq
        exact Or.inl ⟨hp, rfl⟩
      · rw [if_neg hp] at hq
        exact Or.inr (by simp [hq])
    · rcases ih hq with h1 | h1
      · exact Or.inl h1
      · exact Or.inr (List.mem_cons_of_mem _ h1)

theorem mem_setHolding_key {hs : List (Instrument × Holding)} {j : Instrument} {x : Holding}
    {q : Instrument × Holding} (hq : q ∈ setHolding hs j x) (hk : q.1 = j) : q.2 = x := by
  induction hs with
  | nil => simp [setHolding] at hq
  | cons p ps ih =>
    simp only [setHolding, List.mem_cons] at hq
    rcases hq with hq | hq
    · by_cases hp : p.1 = j
      · rw [if_pos hp] at hq
        rw [hq]
      · rw [if_neg hp] at hq
        exact absurd (hq ▸ hk) hp
    · exact ih hq

theorem mem_removeHolding {hs : List (Instrument × Holding)} {i : Instrument}
    {q : Instrument × Holding} (hq : q ∈ removeHolding hs i) : q ∈ hs := by
  induction hs with
  | nil => simp [removeHolding] at hq
  | cons p ps ih =>
    by_cases hp : p.1 = i
    · simp only [removeHolding, if_pos hp] at hq
      exact List.mem_cons_of_mem _ (ih hq)
    · simp only [removeHolding, if_neg hp, List.mem_cons] at hq
      rcases hq with hq | hq
      · exact hq ▸ List.mem_cons_self _ _
      · exact List.mem_cons_of_mem _ (ih hq)

theorem not_key_mem_removeHolding {hs : List (Instrument × Holding)} {i : Instrument}
    {q : Instrument × Holding} (hq : q ∈ removeHolding hs i) : q.1 ≠ i := by
  induction hs with
  | nil => simp [removeHolding] at hq
  | cons p ps ih =>
    by_cases hp : p.1 = i
    · simp only [removeHolding, if_pos hp] at hq
      exact ih hq
    · simp only [removeHolding, if_neg hp, List.mem_cons] at hq
      rcases hq with hq | hq
      · rw [hq]; exact hp
      · exact ih hq

theorem lookupHolding_append_of_some {hs : List (Instrument × Holding)} {i : Instrument}
    {h : Holding} (ks : List (Instrument × Holding)) (hl : lookupHolding hs i = some h) :
    lookupHolding (hs ++ ks) i = some h := by
  induction hs with
  | nil => simp [lookupHolding] at hl
  | cons p ps ih =>
    by_cases hp : p.1 = i
    · simp only [lookupHolding, if_pos hp] at hl
      simp only [List.cons_append, lookupHolding, if_pos hp]
      exact hl
    · simp only [lookupHolding, if_neg hp] at hl
      simp only [List.cons_append, lookupHolding, if_neg hp]
      exact ih hl

theorem lookupHolding_append_of_none {hs : List (Instrument × Holding)} {i : Instrument}
    (ks : List (Instrument × Holding)) (hl : lookupHolding hs i = none) :
    lookupHolding (hs ++ ks) i = lookupHolding ks i := by
  induction hs with
  | nil => rfl
  | cons p ps ih =>
    by_cases hp : p.1 = i
    · rw [lookupHolding, if_pos hp] at hl
      exact absurd hl (by simp)
    · rw [lookupHolding, if_neg hp] at hl
      simp only [List.cons_append, lookupHolding, if_neg hp]
      exact ih hl

theorem lookupHolding_single_self (j : Instrument) (x : Holding) :
    lookupHolding [(j, x)] j = some x := by
  simp [lookupHolding]

theorem lookupHolding_append_single_ne {hs : List (Instrument × Holding)} {i j : Instrument}
    (x : Holding) (hij : i ≠ j) :
    lookupHolding (hs ++ [(j, x)]) i = lookupHolding hs i := by
  cases hl : lookupHolding hs i with
  | some h => exact lookupHolding_append_of_some _ hl
  | none =>
    rw [lookupHolding_append_of_none _ hl]
    simp only [lookupHolding]
    rw [if_neg (fun hc : j = i => hij hc.symm)]

/-- Every successful `execute_trade` with a positive quantity preserves
positivity of all holding quantities (src/app.py lines 131-209 case
analysis). -/
theorem execute_trade_preserves_positive_quantity (s : DBState) (req : TradeRequest) (q : ℚ)
    (s' : DBState) (resp : TradeResponse)
    (hpos : ∀ p ∈ s.holdings, 0 < p.2.quantity)
    (hq : req.quantity = some q) (hq0 : 0 < q)
    (hok : execute_trade s req = .ok s' resp) :
    ∀ p ∈ s'.holdings, 0 < p.2.quantity := by
  obtain ⟨rs, rm, rside, rq, rp, rr, rt⟩ := req
  simp only at hq
  subst hq
  cases rs with
  | none => simp only [execute_trade] at hok; exact TradeResult.noConfusion hok
  | some symbol =>
  cases rm with
  | none => simp only [execute_trade] at hok; exact TradeResult.noConfusion hok
  | some market =>
  cases rside with
  | none => simp only [execute_trade] at hok; exact TradeResult.noConfusion hok
  | some side₀ =>
  cases rp with
  | none => simp only [execute_trade] at hok; exact TradeResult.noConfusion hok
  | some price =>
  simp only [execute_trade, execute_trade_checked] at hok
  split at hok
  · exact TradeResult.noConfusion hok
  · split at hok
    · -- no existing holding: a new one is created with quantity q
      split at hok
      · exact TradeResult.noConfusion hok
      · obtain ⟨h1, -⟩ := TradeResult.ok.inj hok
        subst h1
        intro p hp
        simp only [List.mem_append, List.mem_singleton] at hp
        rcases hp with hp | hp
        · exact hpos p hp
        · rw [hp]; exact hq0
    · -- existing holding
      rename_i holding hlook
      split at hok
      · -- BUY: either the zero-total division error, or quantity grows by q
        split at hok
        · exact TradeResult.noConfusion hok
        · obtain ⟨h1, -⟩ := TradeResult.ok.inj hok
          subst h1
          intro p hp
          rcases mem_setHolding hp with ⟨-, hp2⟩ | hp2
          · rw [hp2]
            exact add_pos (hpos _ (lookupHolding_mem hlook)) hq0
          · exact hpos p hp2
      · split at hok
        · -- SELL
          split at hok
          · exact TradeResult.noConfusion hok
          · rename_i hnlt
            split at hok
            · -- full close: the holding row is removed
              obtain ⟨h1, -⟩ := TradeResult.ok.inj hok
              subst h1
              intro p hp
              exact hpos p (mem_removeHolding hp)
            · -- partial close: the remaining quantity is positive
              rename_i hne
              obtain ⟨h1, -⟩ := TradeResult.ok.inj hok
              subst h1
              intro p hp
              rcases mem_setHolding hp with ⟨-, hp2⟩ | hp2
              · rw [hp2]
                have hlt : q < holding.quantity :=
                  lt_of_le_of_ne (not_lt.mp hnlt)
                    (fun hc => hne (by rw [hc, sub_self]))
                exact sub_pos.mpr hlt
              · exact hpos p hp2
        · exact TradeResult.noConfusion hok

/-- A SELL of exactly the held quantity deletes the holding row, and the
assets-overview query afterwards has no entry for that instrument. -/
theorem execute_trade_full_close_deletes (s : DBState) (req : TradeRequest)
    (symbol market side₀ : String) (trade_qty trade_price : ℚ) (h : Holding)
    (hsym : req.symbol = some symbol) (hmkt : req.market = some market)
    (hside : req.side = some side₀) (hq : req.quantity = some trade_qty)
    (hp : req.price = some trade_price)
    (hup : pyUpper side₀ = "SELL")
    (hmem : (⟨symbol, market⟩ : Instrument) ∈ s.instruments)
    (hh : lookupHolding s.holdings ⟨symbol, market⟩ = some h)
    (heq : trade_qty = h.quantity) :
    ∃ s' resp, execute_trade s req = .ok s' resp ∧
      lookupHolding s'.holdings ⟨symbol, market⟩ = none ∧
      ∀ e ∈ get_assets_overview s', ¬(e.symbol = symbol ∧ e.market = market) := by
  obtain ⟨rs, rm, rside, rq, rp, rr, rt⟩ := req
  simp only at hsym hmkt hside hq hp
  subst hsym hmkt hside hq hp
  subst heq
  simp only [execute_trade, execute_trade_checked, hup, hh]
  rw [if_neg (by simp [hmem])]
  rw [if_neg (lt_irrefl _)]
  rw [if_pos (sub_self _)]
  refine ⟨_, _, rfl, lookupHolding_remove _ _, ?_⟩
  intro e he ⟨hes, hem⟩
  simp only [get_assets_overview, List.mem_map] at he
  obtain ⟨p, hpmem, hpe⟩ := he
  have h1 : p.1 = (⟨symbol, market⟩ : Instrument) := by
    have hs1 : p.1.symbol = symbol := by rw [← hpe] at hes; exact hes
    have hs2 : p.1.market = market := by rw [← hpe] at hem; exact hem
    calc p.1 = ⟨p.1.symbol, p.1.market⟩ := rfl
      _ = ⟨symbol, market⟩ := by rw [hs1, hs2]
  exact not_key_mem_removeHolding hpmem h1

/-! Helper lemmas for the bulk update-assets endpoint. -/

theorem update_assets_loop_processed (items : List AssetItem) :
    ∀ (s : DBState) (processed : List Instrument),
    (update_assets_loop s processed items).2 = processed ++ items.filterMap validItem := by
  induction items with
  | nil => intro s processed; simp [update_assets_loop]
  | cons item rest ih =>
    intro s processed
    cases hv : validItem item with
    | none => simp [update_assets_loop, hv, ih, List.filterMap_cons]
    | some instr => simp [update_assets_loop, hv, ih, List.filterMap_cons]

/-- Loop invariant of `update_assets`: an instrument processed so far has
holding rows whose average cost is the one already stored before the
request (the loop only ever writes `quantity` and `current_price` for
instruments that had a row). -/
theorem update_assets_loop_inv (items : List AssetItem) :
    ∀ (s₀ s : DBState) (processed : List Instrument),
    (∀ i, i ∉ processed → lookupHolding s.holdings i = lookupHolding s₀.holdings i) →
    (∀ i ∈ processed, (lookupHolding s.holdings i).isSome) →
    (∀ i ∈ processed, ∀ h h', lookupHolding s₀.holdings i = some h →
        (i, h') ∈ s.holdings → h'.average_cost = h.average_cost) →
    ∀ i ∈ (update_assets_loop s processed items).2, ∀ h h',
      lookupHolding s₀.holdings i = some h →
      (i, h') ∈ (update_assets_loop s processed items).1.holdings →
      h'.average_cost = h.average_cost := by
  induction items with
  | nil =>
    intro s₀ s processed _ _ hI2
    simpa [update_assets_loop] using hI2
  | cons item rest ih =>
    intro s₀ s processed hI1 hI3 hI2
    cases hv : validItem item with
    | none =>
      simp only [update_assets_loop, hv]
      exact ih s₀ s processed hI1 hI3 hI2
    | some instr =>
      cases hA : lookupHolding s.holdings instr with
      | some holdA =>
        simp only [update_assets_loop, hv, hA]
        apply ih s₀
        · intro i hi
          simp only [List.mem_append, List.mem_singleton, not_or] at hi
          obtain ⟨hip, hii⟩ := hi
          rw [lookupHolding_set_ne _ hii]
          exact hI1 i hip
        · intro i hi
          simp only [List.mem_append, List.mem_singleton] at hi
          by_cases hii : i = instr
          · subst hii
            rw [lookupHolding_set_self _ hA]
            rfl
          · rw [lookupHolding_set_ne _ hii]
            rcases hi with hi | hi
            · exact hI3 i hi
            · exact absurd hi hii
        · intro i hi h h' hl hmem
          by_cases hii : i = instr
          · subst hii
            have hx : h' = ⟨item.quantity.getD 0, holdA.average_cost, item.current_price.getD 0⟩ :=
              mem_setHolding_key hmem rfl
            rw [hx]
            show holdA.average_cost = h.average_cost
            by_cases hip : i ∈ processed
            · exact hI2 i hip h holdA hl (lookupHolding_mem hA)
            · have := hI1 i hip
              rw [hA, hl] at this
              obtain rfl : holdA = h := by injection this
              rfl
          · rcases mem_setHolding hmem with ⟨hk, -⟩ | hmem2
            · exact absurd hk hii
            · simp only [List.mem_append, List.mem_singleton] at hi
              rcases hi with hi | hi
              · exact hI2 i hi h h' hl hmem2
              · exact absurd hi hii
      | none =>
        simp only [update_assets_loop, hv, hA]
        apply ih s₀
        · intro i hi
          simp only [List.mem_append, List.mem_singleton, not_or] at hi
          obtain ⟨hip, hii⟩ := hi
          rw [lookupHolding_append_single_ne _ hii]
          exact hI1 i hip
        · intro i hi
          simp only [List.mem_append, List.mem_singleton] at hi
          by_cases hii : i = instr
          · subst hii
            rw [lookupHolding_append_of_none _ hA, lookupHolding_single_self]
            rfl
          · rw [lookupHolding_append_single_ne _ hii]
            rcases hi with hi | hi
            · exact hI3 i hi
            · exact absurd hi hii
        · intro i hi h h' hl hmem
          simp only [List.mem_append, List.mem_singleton] at hmem
          by_cases hii : i = instr
          · subst hii
            by_cases hip : i ∈ processed
            · have := hI3 i hip
              rw [hA] at this
              exact absurd this (by simp)
            · have := hI1 i hip
              rw [hA, hl] at this
              exact absurd this (by simp)
          · rcases hmem with hmem | hmem
            · simp only [List.mem_append, List.mem_singleton] at hi
              rcases hi with hi | hi
              · exact hI2 i hi h h' hl hmem
              · exact absurd hi hii
            · exact absurd (congrArg Prod.fst hmem) hii

/-! Claim theorems. -/

/-- Claim C1: for every BUY of trade_qty > 0 at trade_price against an
existing Holding, `execute_trade` updates the Holding to
quantity = current_qty + trade_qty,
average_cost = (current_qty * current_avg_cost + trade_qty * trade_price)
/ (current_qty + trade_qty), and current_price = trade_price; and the
concrete example BUY 10 @ 100 then BUY 10 @ 120 from empty state yields
quantity 20 and average_cost 110.  The holding state is required to have
a nonnegative quantity, so that the new total quantity is positive and
the average-cost division at app.py line 178 cannot raise
ZeroDivisionError. -/
theorem c1_buy_weighted_average_cost :
    (∀ (s : DBState) (req : TradeRequest) (symbol market side₀ : String)
       (trade_qty trade_price : ℚ) (h : Holding),
      req.symbol = some symbol → req.market = some market →
      req.side = some side₀ → req.quantity = some trade_qty →
      req.price = some trade_price →
      pyUpper side₀ = "BUY" → 0 < trade_qty → 0 ≤ h.quantity →
      lookupHolding s.holdings ⟨symbol, market⟩ = some h →
      ∃ s' resp, execute_trade s req = .ok s' resp ∧
        lookupHolding s'.holdings ⟨symbol, market⟩ =
          some ⟨h.quantity + trade_qty,
                (h.quantity * h.average_cost + trade_qty * trade_price) /
                  (h.quantity + trade_qty),
                trade_price⟩) ∧
    lookupHolding
      (execute_trade
        (execute_trade DBState.empty
          ⟨some "NVDA", some "US", some "BUY", some 10, some 100, none, none⟩).state
        ⟨some "NVDA", some "US", some "BUY", some 10, some 120, none, none⟩).state.holdings
      ⟨"NVDA", "US"⟩ = some ⟨20, 110, 120⟩ := by
  constructor
  · intro s req symbol market side₀ trade_qty trade_price h hsym hmkt hside hq hp hup hq0 hnn hh
    obtain ⟨rs, rm, rside, rq, rp, rr, rt⟩ := req
    simp only at hsym hmkt hside hq hp
    subst hsym hmkt hside hq hp
    simp only [execute_trade, execute_trade_checked, hup, hh]
    rw [if_neg (by simp)]
    rw [if_neg (add_pos_of_nonneg_of_pos hnn hq0).ne']
    exact ⟨_, _, rfl, lookupHolding_set_self _ hh⟩
  · norm_num [execute_trade, execute_trade_checked, DBState.empty, lookupHolding, setHolding,
      pyUpper, TradeResult.state]

/-- Claim C1 witness: the general statement applied to a concrete BUY of
5 @ 12 against an existing Holding (5, 8, 9). -/
theorem c1_buy_weighted_average_cost_witness :
    ∃ s' resp,
      execute_trade ⟨[⟨"X", "TW"⟩], [], [(⟨"X", "TW"⟩, ⟨5, 8, 9⟩)]⟩
        ⟨some "X", some "TW", some "buy", some 5, some 12, none, none⟩ = .ok s' resp ∧
      lookupHolding s'.holdings ⟨"X", "TW"⟩ =
        some ⟨5 + 5, (5 * 8 + 5 * 12) / (5 + 5), 12⟩ :=
  c1_buy_weighted_average_cost.1 ⟨[⟨"X", "TW"⟩], [], [(⟨"X", "TW"⟩, ⟨5, 8, 9⟩)]⟩
    ⟨some "X", some "TW", some "buy", some 5, some 12, none, none⟩
    "X" "TW" "buy" 5 12 ⟨5, 8, 9⟩ rfl rfl rfl rfl rfl (by decide) (by norm_num) (by norm_num)
    (by norm_num [lookupHolding])

/-- Claim C2: for every SELL of 0 < trade_qty < current quantity,
`execute_trade` decreases the Holding quantity by trade_qty, sets
current_price = trade_price, and leaves average_cost exactly unchanged. -/
theorem c2_sell_preserves_average_cost (s : DBState) (req : TradeRequest)
    (symbol market side₀ : String) (trade_qty trade_price : ℚ) (h : Holding)
    (hsym : req.symbol = some symbol) (hmkt : req.market = some market)
    (hside : req.side = some side₀) (hq : req.quantity = some trade_qty)
    (hp : req.price = some trade_price)
    (hup : pyUpper side₀ = "SELL")
    (hmem : (⟨symbol, market⟩ : Instrument) ∈ s.instruments)
    (hh : lookupHolding s.holdings ⟨symbol, market⟩ = some h)
    (hq0 : 0 < trade_qty) (hlt : trade_qty < h.quantity) :
    ∃ s' resp, execute_trade s req = .ok s' resp ∧
      lookupHolding s'.holdings ⟨symbol, market⟩ =
        some ⟨h.quantity - trade_qty, h.average_cost, trade_price⟩ := by
  obtain ⟨rs, rm, rside, rq, rp, rr, rt⟩ := req
  simp only at hsym hmkt hside hq hp
  subst hsym hmkt hside hq hp
  simp only [execute_trade, execute_trade_checked, hup, hh]
  rw [if_neg (by simp [hmem])]
  rw [if_neg (not_lt.mpr hlt.le)]
  rw [if_neg (sub_ne_zero.mpr (ne_of_gt hlt))]
  exact ⟨_, _, rfl, lookupHolding_set_self _ hh⟩

/-- Claim C2 witness: SELL 5 @ 150 against a Holding (20, 110, 100) gives
quantity 15, average_cost 110 unchanged, current_price 150. -/
theorem c2_sell_preserves_average_cost_witness :
    ∃ s' resp,
      execute_trade ⟨[⟨"Y", "US"⟩], [], [(⟨"Y", "US"⟩, ⟨20, 110, 100⟩)]⟩
        ⟨some "Y", some "US", some "SELL", some 5, some 150, none, none⟩ = .ok s' resp ∧
      lookupHolding s'.holdings ⟨"Y", "US"⟩ = some ⟨20 - 5, 110, 150⟩ :=
  c2_sell_preserves_average_cost ⟨[⟨"Y", "US"⟩], [], [(⟨"Y", "US"⟩, ⟨20, 110, 100⟩)]⟩
    ⟨some "Y", some "US", some "SELL", some 5, some 150, none, none⟩
    "Y" "US" "SELL" 5 150 ⟨20, 110, 100⟩ rfl rfl rfl rfl rfl (by decide)
    (by norm_num) (by norm_num [lookupHolding]) (by norm_num) (by norm_num)

/-- Claim C3: a SELL of more than the held quantity, or against no Holding
at all, is rejected with an error, and the committed ledger and holdings
are exactly those from before the call. -/
theorem c3_oversell_rejected_atomically (s : DBState) (req : TradeRequest)
    (symbol market side₀ : String) (trade_qty trade_price : ℚ)
    (hsym : req.symbol = some symbol) (hmkt : req.market = some market)
    (hside : req.side = some side₀) (hq : req.quantity = some trade_qty)
    (hp : req.price = some trade_price)
    (hup : pyUpper side₀ = "SELL")
    (hbad : lookupHolding s.holdings ⟨symbol, market⟩ = none ∨
      ∃ h, lookupHolding s.holdings ⟨symbol, market⟩ = some h ∧ h.quantity < trade_qty) :
    (execute_trade s req).isOk = false ∧
      (execute_trade s req).state.transactions = s.transactions ∧
      (execute_trade s req).state.holdings = s.holdings := by
  obtain ⟨rs, rm, rside, rq, rp, rr, rt⟩ := req
  simp only at hsym hmkt hside hq hp
  subst hsym hmkt hside hq hp
  suffices hE : ∃ m, execute_trade s ⟨some symbol, some market, some side₀, some trade_qty,
      some trade_price, rr, rt⟩ = .err s m by
    obtain ⟨m, hm⟩ := hE
    rw [hm]
    exact ⟨rfl, rfl, rfl⟩
  by_cases hm : (⟨symbol, market⟩ : Instrument) ∈ s.instruments
  · rcases hbad with hnone | ⟨h, hsome, hlt⟩
    · exact ⟨"Position not found",
        by simp [execute_trade, execute_trade_checked, hup, hnone, hm]⟩
    · exact ⟨"Not enough quantity to sell",
        by simp [execute_trade, execute_trade_checked, hup, hsome, hm, hlt]⟩
  · exact ⟨"Cannot sell an instrument you do not own",
      by simp [execute_trade, execute_trade_checked, hup, hm]⟩

/-- Claim C3 witness: SELL 6 against a Holding holding only 5 is rejected
and touches neither the ledger nor the holdings. -/
theorem c3_oversell_rejected_atomically_witness :
    (execute_trade ⟨[⟨"A", "US"⟩], [], [(⟨"A", "US"⟩, ⟨5, 7, 9⟩)]⟩
      ⟨some "A", some "US", some "sell", some 6, some 2, none, none⟩).isOk = false ∧
    (execute_trade ⟨[⟨"A", "US"⟩], [], [(⟨"A", "US"⟩, ⟨5, 7, 9⟩)]⟩
      ⟨some "A", some "US", some "sell", some 6, some 2, none, none⟩).state.transactions = [] ∧
    (execute_trade ⟨[⟨"A", "US"⟩], [], [(⟨"A", "US"⟩, ⟨5, 7, 9⟩)]⟩
      ⟨some "A", some "US", some "sell", some 6, some 2, none, none⟩).state.holdings =
      [(⟨"A", "US"⟩, ⟨5, 7, 9⟩)] :=
  c3_oversell_rejected_atomically ⟨[⟨"A", "US"⟩], [], [(⟨"A", "US"⟩, ⟨5, 7, 9⟩)]⟩
    ⟨some "A", some "US", some "sell", some 6, some 2, none, none⟩
    "A" "US" "sell" 6 2 rfl rfl rfl rfl rfl (by decide)
    (Or.inr ⟨⟨5, 7, 9⟩, by norm_num [lookupHolding], by norm_num⟩)

/-- Claim C4 counterexample: the endpoint never validates quantity > 0, so
a successful BUY of quantity 0 creates a Holding with quantity = 0 — the
claim that no zero-quantity Holding exists after every successful call is
false. -/
theorem c4_zero_quantity_counterexample :
    (execute_trade DBState.empty
      ⟨some "AAA", some "TW", some "BUY", some 0, some 1, none, none⟩).isOk = true ∧
    lookupHolding (execute_trade DBState.empty
      ⟨some "AAA", some "TW", some "BUY", some 0, some 1, none, none⟩).state.holdings
      ⟨"AAA", "TW"⟩ = some ⟨0, 1, 1⟩ := by
  have hupB : pyUpper "BUY" = "BUY" := by decide
  constructor <;>
    simp [execute_trade, execute_trade_checked, DBState.empty, lookupHolding, hupB,
      TradeResult.isOk, TradeResult.state]

/-- Claim C4 amended: provided the trade quantity is positive and all
holdings start with positive quantity, no Holding with quantity = 0
exists after a successful `execute_trade`; and a SELL of exactly the held
quantity deletes the Holding, after which the overview query returns no
entry for that instrument. -/
theorem c4_zero_quantity_deletion_amended :
    (∀ (s : DBState) (req : TradeRequest) (q : ℚ) (s' : DBState) (resp : TradeResponse),
      (∀ p ∈ s.holdings, 0 < p.2.quantity) → req.quantity = some q → 0 < q →
      execute_trade s req = .ok s' resp →
      ∀ p ∈ s'.holdings, ¬ p.2.quantity = 0) ∧
    (∀ (s : DBState) (req : TradeRequest) (symbol market side₀ : String)
       (trade_qty trade_price : ℚ) (h : Holding),
      req.symbol = some symbol → req.market = some market →
      req.side = some side₀ → req.quantity = some trade_qty →
      req.price = some trade_price →
      pyUpper side₀ = "SELL" →
      (⟨symbol, market⟩ : Instrument) ∈ s.instruments →
      lookupHolding s.holdings ⟨symbol, market⟩ = some h →
      trade_qty = h.quantity →
      ∃ s' resp, execute_trade s req = .ok s' resp ∧
        lookupHolding s'.holdings ⟨symbol, market⟩ = none ∧
        ∀ e ∈ get_assets_overview s', ¬(e.symbol = symbol ∧ e.market = market)) := by
  constructor
  · intro s req q s' resp hpos hq hq0 hok p hp
    exact ne_of_gt (execute_trade_preserves_positive_quantity s req q s' resp hpos hq hq0 hok p hp)
  · exact execute_trade_full_close_deletes

/-- Claim C4 amended witness: SELL of the full quantity 5 against a
Holding (5, 7, 9) deletes it and the overview query shows nothing. -/
theorem c4_zero_quantity_deletion_amended_witness :
    ∃ s' resp,
      execute_trade ⟨[⟨"B", "US"⟩], [], [(⟨"B", "US"⟩, ⟨5, 7, 9⟩)]⟩
        ⟨some "B", some "US", some "SELL", some 5, some 2, none, none⟩ = .ok s' resp ∧
      lookupHolding s'.holdings ⟨"B", "US"⟩ = none ∧
      ∀ e ∈ get_assets_overview s', ¬(e.symbol = "B" ∧ e.market = "US") :=
  c4_zero_quantity_deletion_amended.2 ⟨[⟨"B", "US"⟩], [], [(⟨"B", "US"⟩, ⟨5, 7, 9⟩)]⟩
    ⟨some "B", some "US", some "SELL", some 5, some 2, none, none⟩
    "B" "US" "SELL" 5 2 ⟨5, 7, 9⟩ rfl rfl rfl rfl rfl (by decide)
    (by norm_num) (by norm_num [lookupHolding]) (by norm_num)

/-- Claim C5: the Sortino computation returns 0 for fewer than 2
observations; +infinity when no observation is below the risk-free rate;
and otherwise (mean(returns) * 252 - risk_free_rate) /
(sqrt(mean(downside^2)) * sqrt(252)), with 0 when that denominator is 0. -/
theorem c5_sortino_spec (returns : List ℝ) (rfr : ℝ) :
    (returns.length < 2 → calculate_sortino returns rfr = .val 0) ∧
    (2 ≤ returns.length → (returns.filter fun r => decide (r < rfr)) = [] →
      calculate_sortino returns rfr = .inf) ∧
    (2 ≤ returns.length → (returns.filter fun r => decide (r < rfr)) ≠ [] →
      calculate_sortino returns rfr =
        .val (if Real.sqrt (((returns.filter fun r => decide (r < rfr)).map fun r => r ^ 2).sum /
                  ((returns.filter fun r => decide (r < rfr)).length : ℝ)) * Real.sqrt 252 = 0
              then 0
              else (returns.sum / (returns.length : ℝ) * 252 - rfr) /
                (Real.sqrt (((returns.filter fun r => decide (r < rfr)).map fun r => r ^ 2).sum /
                    ((returns.filter fun r => decide (r < rfr)).length : ℝ)) * Real.sqrt 252))) := by
  refine ⟨?_, ?_, ?_⟩
  · intro hlen
    simp [calculate_sortino, hlen]
  · intro hlen hds
    simp only [calculate_sortino]
    rw [if_neg (not_lt.mpr hlen)]
    rw [hds]
    simp
  · intro hlen hds
    simp only [calculate_sortino]
    rw [if_neg (not_lt.mpr hlen)]
    rw [if_neg (by simpa [List.length_eq_zero] using hds)]
    by_cases hz : Real.sqrt (((returns.filter fun r => decide (r < rfr)).map fun r => r ^ 2).sum /
        ((returns.filter fun r => decide (r < rfr)).length : ℝ)) * Real.sqrt 252 = 0
    · rw [if_neg (not_not_intro hz), if_pos hz]
    · rw [if_pos hz, if_neg hz]

/-- Claim C5 witness: a two-observation series with no downside returns
gives +infinity. -/
theorem c5_sortino_spec_witness : calculate_sortino [(1 : ℝ), 1] 0 = .inf :=
  (c5_sortino_spec [(1 : ℝ), 1] 0).2.1 (by norm_num) (by norm_num [List.filter])

/-- Claim C6 counterexample: two trades of pnl 1/5 with size 1 and
multiplier 50 have raw points 0.004 each; the code stores them rounded to
0.00 and reports total 0.00, while rounding only at the boundary would
report round2(0.008) = 0.01. -/
theorem c6_points_rounded_before_sum_counterexample :
    total_net_points_reported 50 [⟨1/5, 1⟩, ⟨1/5, 1⟩] = 0 ∧
    round2 ((List.map (trade_points_raw 50) [⟨1/5, 1⟩, ⟨1/5, 1⟩]).sum) = 1/100 ∧
    (0 : ℚ) ≠ 1/100 := by
  refine ⟨?_, ?_, by norm_num⟩ <;>
    norm_num [total_net_points_reported, total_net_points, trade_points, trade_points_raw,
      round2, roundHalfEven]

/-- Claim C6 amended: `total_net_points` is the sum of per-trade points
values that are already rounded to 2 decimal places when the trade-list
analyzer stores them, and the reported overview value rounds that sum a
second time — per-trade rounding happens before the summation, not only
at the reporting boundary. -/
theorem c6_total_net_points_amended (mult : ℚ) (trades : List BtTrade) :
    total_net_points mult trades = (trades.map fun t => round2 (trade_points_raw mult t)).sum ∧
    total_net_points_reported mult trades =
      round2 ((trades.map fun t => round2 (trade_points_raw mult t)).sum) := by
  constructor <;> rfl

/-- Claim C7 counterexample: a BUY with quantity -3 (all fields present)
is not rejected — it succeeds and appends a ledger row, so the claimed
validation of quantity > 0 and price >= 0 does not exist. -/
theorem c7_no_quantity_validation_counterexample :
    (execute_trade DBState.empty
      ⟨some "NEG", some "US", some "BUY", some (-3), some 1, none, none⟩).isOk = true ∧
    (execute_trade DBState.empty
      ⟨some "NEG", some "US", some "BUY", some (-3), some 1, none, none⟩).state.transactions.length
      = 1 := by
  have hupB : pyUpper "BUY" = "BUY" := by decide
  constructor <;>
    simp [execute_trade, execute_trade_checked, DBState.empty, lookupHolding, hupB,
      TradeResult.isOk, TradeResult.state]

/-- Claim C7 amended: the only validation `execute_trade` performs before
any state change is presence of the five required fields; a request
missing any of them is rejected with the state untouched (quantity
positivity and price nonnegativity are never checked). -/
theorem c7_missing_fields_rejected_amended (s : DBState) (req : TradeRequest)
    (hmiss : req.symbol = none ∨ req.market = none ∨ req.side = none ∨
      req.quantity = none ∨ req.price = none) :
    execute_trade s req = .err s "Missing fields" := by
  obtain ⟨rs, rm, rside, rq, rp, rr, rt⟩ := req
  simp only at hmiss
  cases rs <;> cases rm <;> cases rside <;> cases rq <;> cases rp <;>
    first
      | rfl
      | (rcases hmiss with h | h | h | h | h <;> simp at h)

/-- Claim C7 amended witness: a request without a price is rejected with
the state unchanged. -/
theorem c7_missing_fields_rejected_amended_witness :
    execute_trade DBState.empty ⟨some "Z", some "US", some "BUY", some 1, none, none, none⟩ =
      .err DBState.empty "Missing fields" :=
  c7_missing_fields_rejected_amended DBState.empty
    ⟨some "Z", some "US", some "BUY", some 1, none, none, none⟩
    (Or.inr (Or.inr (Or.inr (Or.inr rfl))))

/-- Claim C8: a SELL of exactly the held quantity deletes the Holding but
the success response reports the in-memory object, whose quantity field
was never set to 0 — it equals the pre-SELL quantity. -/
theorem c8_full_close_reports_presell_quantity (s : DBState) (req : TradeRequest)
    (symbol market side₀ : String) (trade_qty trade_price : ℚ) (h : Holding)
    (hsym : req.symbol = some symbol) (hmkt : req.market = some market)
    (hside : req.side = some side₀) (hq : req.quantity = some trade_qty)
    (hp : req.price = some trade_price)
    (hup : pyUpper side₀ = "SELL")
    (hmem : (⟨symbol, market⟩ : Instrument) ∈ s.instruments)
    (hh : lookupHolding s.holdings ⟨symbol, market⟩ = some h)
    (heq : trade_qty = h.quantity) :
    ∃ s' resp, execute_trade s req = .ok s' resp ∧
      resp.current_holding_quantity = h.quantity ∧
      lookupHolding s'.holdings ⟨symbol, market⟩ = none := by
  obtain ⟨rs, rm, rside, rq, rp, rr, rt⟩ := req
  simp only at hsym hmkt hside hq hp
  subst hsym hmkt hside hq hp
  subst heq
  simp only [execute_trade, execute_trade_checked, hup, hh]
  rw [if_neg (by simp [hmem])]
  rw [if_neg (lt_irrefl _)]
  rw [if_pos (sub_self _)]
  exact ⟨_, _, rfl, rfl, lookupHolding_remove _ _⟩

/-- Claim C8 witness: fully closing a Holding of quantity 5 reports
current_holding.quantity = 5 (not 0) while the row is deleted. -/
theorem c8_full_close_reports_presell_quantity_witness :
    ∃ s' resp,
      execute_trade ⟨[⟨"C", "US"⟩], [], [(⟨"C", "US"⟩, ⟨5, 7, 9⟩)]⟩
        ⟨some "C", some "US", some "SELL", some 5, some 2, none, none⟩ = .ok s' resp ∧
      resp.current_holding_quantity = 5 ∧
      lookupHolding s'.holdings ⟨"C", "US"⟩ = none :=
  c8_full_close_reports_presell_quantity ⟨[⟨"C", "US"⟩], [], [(⟨"C", "US"⟩, ⟨5, 7, 9⟩)]⟩
    ⟨some "C", some "US", some "SELL", some 5, some 2, none, none⟩
    "C" "US" "SELL" 5 2 ⟨5, 7, 9⟩ rfl rfl rfl rfl rfl (by decide)
    (by norm_num) (by norm_num [lookupHolding]) (by norm_num)

/-- Claim C9: a request whose uppercased side is neither BUY nor SELL,
against an instrument with no existing Holding, is not rejected: the
instrument is created if unknown, a Transaction carrying the unrecognized
side is appended, and a Holding (trade_qty, trade_price, trade_price) is
created exactly as a BUY would. -/
theorem c9_unknown_side_behaves_like_buy (s : DBState) (req : TradeRequest)
    (symbol market side₀ : String) (trade_qty trade_price : ℚ)
    (hsym : req.symbol = some symbol) (hmkt : req.market = some market)
    (hside : req.side = some side₀) (hq : req.quantity = some trade_qty)
    (hp : req.price = some trade_price)
    (hupB : pyUpper side₀ ≠ "BUY") (hupS : pyUpper side₀ ≠ "SELL")
    (hh : lookupHolding s.holdings ⟨symbol, market⟩ = none) :
    ∃ s' resp, execute_trade s req = .ok s' resp ∧
      (⟨symbol, market⟩ : Instrument) ∈ s'.instruments ∧
      s'.transactions = s.transactions ++
        [⟨⟨symbol, market⟩, pyUpper side₀, trade_qty, trade_price,
          req.reason.getD "", req.tags.getD []⟩] ∧
      lookupHolding s'.holdings ⟨symbol, market⟩ = some ⟨trade_qty, trade_price, trade_price⟩ := by
  obtain ⟨rs, rm, rside, rq, rp, rr, rt⟩ := req
  simp only at hsym hmkt hside hq hp
  subst hsym hmkt hside hq hp
  simp only [execute_trade, execute_trade_checked, hh]
  rw [if_neg (by simp [hupS])]
  rw [if_neg hupS]
  refine ⟨_, _, rfl, ?_, rfl, ?_⟩
  · by_cases hm : (⟨symbol, market⟩ : Instrument) ∈ s.instruments
    · simp [hm]
    · simp [hm]
  · show lookupHolding (s.holdings ++
        [(⟨symbol, market⟩, ⟨trade_qty, trade_price, trade_price⟩)]) ⟨symbol, market⟩ = _
    rw [lookupHolding_append_of_none _ hh]
    simp [lookupHolding]

/-- Claim C9 witness: side "hold" from empty state creates the
instrument, appends a HOLD transaction and opens a position like a BUY. -/
theorem c9_unknown_side_behaves_like_buy_witness :
    ∃ s' resp,
      execute_trade DBState.empty
        ⟨some "D", some "TW", some "hold", some 3, some 4, none, none⟩ = .ok s' resp ∧
      (⟨"D", "TW"⟩ : Instrument) ∈ s'.instruments ∧
      s'.transactions = [] ++ [⟨⟨"D", "TW"⟩, pyUpper "hold", 3, 4, "", []⟩] ∧
      lookupHolding s'.holdings ⟨"D", "TW"⟩ = some ⟨3, 4, 4⟩ :=
  c9_unknown_side_behaves_like_buy DBState.empty
    ⟨some "D", some "TW", some "hold", some 3, some 4, none, none⟩
    "D" "TW" "hold" 3 4 rfl rfl rfl rfl rfl (by decide) (by decide) rfl

/-- Claim C10: the admin bulk update keeps only holdings whose instrument
appears as a (symbol, market) of some processable submitted item (an
empty or fully skipped list deletes all holdings), and the holdings it
keeps retain their previous average_cost exactly (only quantity and
current_price are written). -/
theorem c10_update_assets_replace_semantics (s : DBState) (items : List AssetItem) :
    (∀ p ∈ (update_assets s items).holdings, p.1 ∈ items.filterMap validItem) ∧
    (items.filterMap validItem = [] → (update_assets s items).holdings = []) ∧
    (∀ i h h', lookupHolding s.holdings i = some h →
      (i, h') ∈ (update_assets s items).holdings → h'.average_cost = h.average_cost) := by
  have hproc : (update_assets_loop s [] items).2 = items.filterMap validItem := by
    simpa using update_assets_loop_processed items s []
  by_cases hr : (update_assets_loop s [] items).2 = []
  · have hempty : (update_assets s items).holdings = [] := by
      simp only [update_assets]
      rw [if_neg (by simp [hr])]
    refine ⟨?_, fun _ => hempty, ?_⟩
    · intro p hp
      rw [hempty] at hp
      simp at hp
    · intro i h h' _ hmem
      rw [hempty] at hmem
      simp at hmem
  · have hfil : (update_assets s items).holdings =
        (update_assets_loop s [] items).1.holdings.filter
          (fun p => decide (p.1 ∈ (update_assets_loop s [] items).2)) := by
      simp only [update_assets]
      rw [if_pos hr]
    refine ⟨?_, ?_, ?_⟩
    · intro p hp
      rw [hfil] at hp
      have := List.of_mem_filter hp
      rw [← hproc]
      simpa using this
    · intro hfm
      exact absurd (hproc.trans hfm) hr
    · intro i h h' hl hmem
      rw [hfil] at hmem
      have h1 := List.mem_of_mem_filter hmem
      have h2 : i ∈ (update_assets_loop s [] items).2 := by
        simpa using List.of_mem_filter hmem
      exact update_assets_loop_inv items s s []
        (fun i _ => rfl) (by simp) (by simp) i h2 h h' hl h1

/-- Claim C10 witness: an empty submitted list deletes every holding. -/
theorem c10_update_assets_replace_semantics_witness :
    (update_assets ⟨[⟨"E", "US"⟩], [], [(⟨"E", "US"⟩, ⟨5, 7, 9⟩)]⟩ []).holdings = [] :=
  (c10_update_assets_replace_semantics
    ⟨[⟨"E", "US"⟩], [], [(⟨"E", "US"⟩, ⟨5, 7, 9⟩)]⟩ []).2.1 rfl

end TradingBackend
